import Mathlib

/-
  Verification development for the Xelma prediction-market contract.

  The data model below follows the type declarations in
  src/bindings/src/index.ts (BetSide, RoundMode, UserPosition,
  PrecisionPrediction, UserStats, OraclePayload, Round, ContractError).
  The contract operation bodies (contract.rs) are not part of the source
  tree; each operation is therefore modelled from the specification, as
  marked in its doc comment.
-/

namespace Xelma

/-- Lower bound of the Rust i128 type used for amounts, balances and pools,
written as a numeral: -2^127. -/
def I128_MIN : Int := -170141183460469231731687303715884105728

/-- Upper bound of the Rust i128 type used for amounts, balances and pools,
written as a numeral: 2^127 - 1. -/
def I128_MAX : Int := 170141183460469231731687303715884105727

/-- Rust `i128::checked_add`: the sum when it fits in i128, `none` on overflow. -/
def checked_add (a b : Int) : Option Int :=
  if I128_MIN ≤ a + b ∧ a + b ≤ I128_MAX then some (a + b) else none

/-- Rust `i128::checked_sub`: the difference when it fits in i128, `none` on overflow. -/
def checked_sub (a b : Int) : Option Int :=
  if I128_MIN ≤ a - b ∧ a - b ≤ I128_MAX then some (a - b) else none

/-- Rust `i128::checked_mul`: the product when it fits in i128, `none` on overflow. -/
def checked_mul (a b : Int) : Option Int :=
  if I128_MIN ≤ a * b ∧ a * b ≤ I128_MAX then some (a * b) else none

/-- Which side a user bet on (src/bindings/src/index.ts, `BetSide`). -/
inductive BetSide
  | Up
  | Down
deriving DecidableEq, Repr

/-- Round mode for prediction type (src/bindings/src/index.ts, `RoundMode`). -/
inductive RoundMode
  | UpDown
  | Precision
deriving DecidableEq, Repr

/-- Users are identified by an abstract address, modelled as a natural number. -/
abbrev User := Nat

/-- An Up/Down position (src/bindings/src/index.ts, `UserPosition`). -/
structure UserPosition where
  amount : Int
  side : BetSide
deriving DecidableEq, Repr

/-- A precision prediction entry (src/bindings/src/index.ts, `PrecisionPrediction`). -/
structure PrecisionPrediction where
  amount : Int
  predicted_price : Nat
  user : User
deriving DecidableEq, Repr

/-- Per-user statistics (src/bindings/src/index.ts, `UserStats`). -/
structure UserStats where
  best_streak : Nat
  current_streak : Nat
  total_losses : Nat
  total_wins : Nat
deriving DecidableEq, Repr

/-- The oracle's resolution payload (src/bindings/src/index.ts, `OraclePayload`). -/
structure OraclePayload where
  price : Nat
  round_id : Nat
  timestamp : Nat
deriving DecidableEq, Repr

/-- An active round (src/bindings/src/index.ts, `Round`). -/
structure Round where
  bet_end_ledger : Nat
  end_ledger : Nat
  mode : RoundMode
  pool_down : Int
  pool_up : Int
  price_start : Nat
  start_ledger : Nat
deriving DecidableEq, Repr

/-- The closed set of contract errors (src/bindings/src/index.ts, `ContractError`). -/
inductive ContractError
  | AlreadyInitialized
  | AdminNotSet
  | OracleNotSet
  | UnauthorizedAdmin
  | UnauthorizedOracle
  | InvalidBetAmount
  | NoActiveRound
  | RoundEnded
  | InsufficientBalance
  | AlreadyBet
  | Overflow
  | InvalidPrice
  | InvalidDuration
  | InvalidMode
  | WrongModeForPrediction
  | RoundNotEnded
  | InvalidPriceScale
  | StaleOracleData
  | InvalidOracleRound
  | RoundAlreadyActive
deriving DecidableEq, Repr

/-- The persistent contract storage, one field per storage namespace of the
`DataKey` enumeration in the bindings: per-user balances (absent until first
mint), per-user pending winnings, per-user stats, the optional active round,
and the two mode-specific position collections. -/
structure State where
  balances : User → Option Int
  pending : User → Int
  stats : User → UserStats
  activeRound : Option Round
  updownPositions : List (User × UserPosition)
  precisionPositions : List PrecisionPrediction

/-- Point update of a per-user map. -/
def setAt {α : Type} (f : User → α) (u : User) (x : α) : User → α :=
  fun v => if v = u then x else f v

/-- Pure read: the currently active round, if any. -/
def get_active_round (s : State) : Option Round :=
  s.activeRound

/-- Pure read: the user's claimable winnings (0 when none recorded). -/
def get_pending_winnings (s : State) (u : User) : Int :=
  s.pending u

/-- Pure read: the user's vXLM balance (0 until minted). -/
def balance (s : State) (u : User) : Int :=
  (s.balances u).getD 0

/-- The fixed starting balance: 1000 vXLM at 7 decimal places
(src/bindings/tests setup constant `INITIAL_BALANCE`). -/
def INITIAL_BALANCE : Int := 10000000000

/-- Modelled from the spec: `mint_initial(user)` credits the fixed starting
balance exactly once per user; a second call is a no-op returning the
existing balance, not an error (spec §4.7; contract.rs body absent from src). -/
def mint_initial (s : State) (u : User) : Int × State :=
  match s.balances u with
  | some b => (b, s)
  | none =>
      (INITIAL_BALANCE, { s with balances := setAt s.balances u (some INITIAL_BALANCE) })

/-- Modelled from the spec: `claim(user)` reads and zeroes the user's pending
amount and credits it to the balance with a checked add, returning the claimed
amount (spec §4.7; contract.rs body absent from src). -/
def claim_winnings (s : State) (u : User) : Except ContractError (Int × State) :=
  let p := s.pending u
  match checked_add (balance s u) p with
  | none => .error ContractError.Overflow
  | some nb =>
      .ok (p, { s with pending := setAt s.pending u 0,
                       balances := setAt s.balances u (some nb) })

/-- Whether the user already holds an Up/Down position this round. -/
def hasPosition (s : State) (u : User) : Bool :=
  s.updownPositions.any (fun q => q.1 == u)

/-- Whether the user already holds a precision prediction this round. -/
def hasPrediction (s : State) (u : User) : Bool :=
  s.precisionPositions.any (fun q => q.user == u)

/-- Modelled from the spec: `place_bet` stakes on the active Up/Down round.
It requires an Open round (else `NoActiveRound`/`RoundEnded`), Up/Down mode
(else `WrongModeForPrediction`), a positive amount (else `InvalidBetAmount`),
sufficient balance (else `InsufficientBalance`) and no prior position (else
`AlreadyBet`); on success the balance is debited and the side's pool credited
with checked arithmetic (spec §4.4; contract.rs body absent from src). -/
def place_bet (now_ledger : Nat) (s : State) (u : User) (amount : Int) (side : BetSide) :
    Except ContractError State :=
  match s.activeRound with
  | none => .error ContractError.NoActiveRound
  | some r =>
      if r.bet_end_ledger ≤ now_ledger then .error ContractError.RoundEnded
      else if r.mode ≠ RoundMode.UpDown then .error ContractError.WrongModeForPrediction
      else if amount ≤ 0 then .error ContractError.InvalidBetAmount
      else if balance s u < amount then .error ContractError.InsufficientBalance
      else if hasPosition s u then .error ContractError.AlreadyBet
      else
        match checked_sub (balance s u) amount with
        | none => .error ContractError.Overflow
        | some nb =>
            match checked_add (if side = BetSide.Up then r.pool_up else r.pool_down) amount with
            | none => .error ContractError.Overflow
            | some np =>
                let r1 := if side = BetSide.Up then { r with pool_up := np }
                          else { r with pool_down := np }
                .ok { s with balances := setAt s.balances u (some nb),
                             activeRound := some r1,
                             updownPositions := s.updownPositions ++ [(u, ⟨amount, side⟩)] }

/-- Modelled from the spec: `place_precision_prediction` stakes an exact-price
guess on the active Precision round; same gating as `place_bet` plus the
predicted price must lie in the 4-decimal scale range 1–999999 (else
`InvalidPriceScale`) (spec §4.4; contract.rs body absent from src). -/
def place_precision_prediction (now_ledger : Nat) (s : State) (u : User) (amount : Int)
    (predicted_price : Nat) : Except ContractError State :=
  match s.activeRound with
  | none => .error ContractError.NoActiveRound
  | some r =>
      if r.bet_end_ledger ≤ now_ledger then .error ContractError.RoundEnded
      else if r.mode ≠ RoundMode.Precision then .error ContractError.WrongModeForPrediction
      else if predicted_price = 0 ∨ 999999 < predicted_price then
        .error ContractError.InvalidPriceScale
      else if amount ≤ 0 then .error ContractError.InvalidBetAmount
      else if balance s u < amount then .error ContractError.InsufficientBalance
      else if hasPrediction s u then .error ContractError.AlreadyBet
      else
        match checked_sub (balance s u) amount with
        | none => .error ContractError.Overflow
        | some nb =>
            .ok { s with balances := setAt s.balances u (some nb),
                         precisionPositions :=
                           s.precisionPositions ++ [⟨amount, predicted_price, u⟩] }

/-- Modelled from the spec: `predict_price` is the alias entry point for
`place_precision_prediction`, accepting the same values under different
argument names and order (spec §4.4; contract.rs body absent from src). -/
def predict_price (now_ledger : Nat) (s : State) (u : User) (guessed_price : Nat)
    (amount : Int) : Except ContractError State :=
  place_precision_prediction now_ledger s u amount guessed_price

/-- A win updates total wins, extends the current streak and raises the best
streak when exceeded (spec §4.6 StatsTracker). -/
def recordWin (st : UserStats) : UserStats :=
  { st with total_wins := st.total_wins + 1,
            current_streak := st.current_streak + 1,
            best_streak := max st.best_streak (st.current_streak + 1) }

/-- A loss updates total losses and resets the current streak (spec §4.6). -/
def recordLoss (st : UserStats) : UserStats :=
  { st with total_losses := st.total_losses + 1, current_streak := 0 }

/-- Resolution deletes the Round and all mode-specific position records
(spec §4.6, final step of both branches). -/
def clearRound (s : State) : State :=
  { s with activeRound := none, updownPositions := [], precisionPositions := [] }

/-- Credit an amount into a user's pending winnings with a checked add. -/
def creditPending (s : State) (u : User) (amt : Int) : Option State :=
  match checked_add (s.pending u) amt with
  | none => none
  | some np => some { s with pending := setAt s.pending u np }

/-- Modelled from the spec: the Up/Down refund path returns every recorded
position's stake unchanged to that user's pending winnings, with no stats
change (spec §4.6). -/
def refundAll (s : State) : List (User × UserPosition) → Option State
  | [] => some s
  | (u, pos) :: rest =>
      match creditPending s u pos.amount with
      | none => none
      | some s1 => refundAll s1 rest

/-- The side that wins an Up/Down round: Up when the observed price exceeds
the start price, Down when it is lower (spec §4.6). -/
def winningSide (price_start price : Nat) : BetSide :=
  if price_start < price then BetSide.Up else BetSide.Down

/-- The pool staked on the winning side. -/
def winPool (r : Round) (price : Nat) : Int :=
  if winningSide r.price_start price = BetSide.Up then r.pool_up else r.pool_down

/-- The pool staked on the losing side. -/
def losePool (r : Round) (price : Nat) : Int :=
  if winningSide r.price_start price = BetSide.Up then r.pool_down else r.pool_up

/-- Modelled from the spec: the Up/Down payout pass. Each winning position is
credited `amount + amount * losing_pool / winning_pool` (checked multiply,
truncating division) and records a win; each losing position is credited
nothing and records a loss (spec §4.6). -/
def payWinners (winner : BetSide) (winning_pool losing_pool : Int) (s : State) :
    List (User × UserPosition) → Option State
  | [] => some s
  | (u, pos) :: rest =>
      if pos.side = winner then
        match checked_mul pos.amount losing_pool with
        | none => none
        | some num =>
            match checked_add pos.amount (num.tdiv winning_pool) with
            | none => none
            | some payout =>
                match creditPending s u payout with
                | none => none
                | some s1 =>
                    payWinners winner winning_pool losing_pool
                      { s1 with stats := setAt s1.stats u (recordWin (s1.stats u)) } rest
      else
        payWinners winner winning_pool losing_pool
          { s with stats := setAt s.stats u (recordLoss (s.stats u)) } rest

/-- Modelled from the spec: the Up/Down resolution branch. An observed price
equal to the start price, or an empty side (zero pool), takes the refund
path; otherwise winners split the losing pool proportionally (spec §4.6). -/
def resolve_updown (s : State) (r : Round) (price : Nat) : Except ContractError State :=
  if price = r.price_start ∨ r.pool_up = 0 ∨ r.pool_down = 0 then
    match refundAll s s.updownPositions with
    | none => .error ContractError.Overflow
    | some s1 => .ok (clearRound s1)
  else
    match payWinners (winningSide r.price_start price) (winPool r price) (losePool r price)
        s s.updownPositions with
    | none => .error ContractError.Overflow
    | some s1 => .ok (clearRound s1)

/-- Absolute difference of two 4-decimal-scaled prices. -/
def absDiff (a b : Nat) : Nat :=
  if b ≤ a then a - b else b - a

/-- Modelled from the spec: the checked sum of all prediction amounts
(`total_pot`, spec §4.6). -/
def sumPotChecked (acc : Int) : List PrecisionPrediction → Option Int
  | [] => some acc
  | q :: rest =>
      match checked_add acc q.amount with
      | none => none
      | some acc1 => sumPotChecked acc1 rest

/-- Modelled from the spec: the Precision payout pass. Every prediction whose
absolute difference equals the minimum is credited the per-winner payout and
records a win; every other prediction records a loss (spec §4.6). -/
def payPrecision (price minD : Nat) (payout : Int) (s : State) :
    List PrecisionPrediction → Option State
  | [] => some s
  | q :: rest =>
      if absDiff q.predicted_price price = minD then
        match creditPending s q.user payout with
        | none => none
        | some s1 =>
            payPrecision price minD payout
              { s1 with stats := setAt s1.stats q.user (recordWin (s1.stats q.user)) } rest
      else
        payPrecision price minD payout
          { s with stats := setAt s.stats q.user (recordLoss (s.stats q.user)) } rest

/-- The minimum absolute difference across predictions, seeded by the first. -/
def minDiff (price : Nat) (q : PrecisionPrediction) (rest : List PrecisionPrediction) : Nat :=
  (rest.map fun x => absDiff x.predicted_price price).foldl min
    (absDiff q.predicted_price price)

/-- The minimum absolute difference across a whole prediction list (0 when
the list is empty, matching no use site). -/
def minDiffList (price : Nat) : List PrecisionPrediction → Nat
  | [] => 0
  | q :: rest => minDiff price q rest

/-- Modelled from the spec: the Precision resolution branch. The winner set is
every prediction at the minimum absolute difference; each winner receives
`total_pot / winner_count` with truncating division; with no predictions the
round is simply cleared (spec §4.6). -/
def resolve_precision (s : State) (price : Nat) : Except ContractError State :=
  match s.precisionPositions with
  | [] => .ok (clearRound s)
  | q :: rest =>
      match sumPotChecked 0 (q :: rest) with
      | none => .error ContractError.Overflow
      | some total_pot =>
          match payPrecision price (minDiff price q rest)
              (total_pot.tdiv ((((q :: rest).filter fun x =>
                absDiff x.predicted_price price == minDiff price q rest).length : Nat) : Int))
              s (q :: rest) with
          | none => .error ContractError.Overflow
          | some s1 => .ok (clearRound s1)

/-- Modelled from the spec: oracle payload validation — a pure precondition
check. Zero price fails `InvalidPrice`; a round identifier differing from the
round's start marker fails `InvalidOracleRound`; data older than the fixed
300-unit freshness window fails `StaleOracleData` (spec §4.5). -/
def validate_payload (now_time : Nat) (p : OraclePayload) (r : Round) :
    Option ContractError :=
  if p.price = 0 then some ContractError.InvalidPrice
  else if p.round_id ≠ r.start_ledger then some ContractError.InvalidOracleRound
  else if p.timestamp + 300 < now_time then some ContractError.StaleOracleData
  else none

/-- Modelled from the spec: `resolve_round` requires a Resolvable round (else
`NoActiveRound`/`RoundNotEnded`), validates the oracle payload, then
dispatches on the round mode (spec §4.6; contract.rs body absent from src). -/
def resolve_round (now_ledger now_time : Nat) (s : State) (p : OraclePayload) :
    Except ContractError State :=
  match s.activeRound with
  | none => .error ContractError.NoActiveRound
  | some r =>
      if now_ledger < r.end_ledger then .error ContractError.RoundNotEnded
      else
        match validate_payload now_time p r with
        | some e => .error e
        | none =>
            match r.mode with
            | RoundMode.UpDown => resolve_updown s r p.price
            | RoundMode.Precision => resolve_precision s p.price

/-- The state observed after an invocation of `resolve_round` under the
all-or-nothing execution model of spec §5: an error discards every mutation,
leaving the prior state. -/
def resolve_round_run (now_ledger now_time : Nat) (s : State) (p : OraclePayload) : State :=
  match resolve_round now_ledger now_time s p with
  | .ok s1 => s1
  | .error _ => s

/-- The state observed after `claim_winnings` under the all-or-nothing
execution model of spec §5. -/
def claim_winnings_run (s : State) (u : User) : State :=
  match claim_winnings s u with
  | .ok q => q.2
  | .error _ => s

/-- Total staked amount recorded on one side of the Up/Down book. -/
def sideAmounts (side : BetSide) (l : List (User × UserPosition)) : Int :=
  ((l.filter fun q => decide (q.2.side = side)).map fun q => q.2.amount).sum

/-- Sum over the book of how much each recorded user's pending winnings grew. -/
def creditsSum (s s1 : State) (l : List (User × UserPosition)) : Int :=
  (l.map fun q => s1.pending q.1 - s.pending q.1).sum

/-- Number of positions on the winning side. -/
def winnerCountUD (winner : BetSide) (l : List (User × UserPosition)) : Nat :=
  (l.filter fun q => decide (q.2.side = winner)).length

/-- Sum of all prediction amounts (the pot, unchecked arithmetic). -/
def potSum (l : List PrecisionPrediction) : Int :=
  (l.map fun q => q.amount).sum

/-- The predictions achieving the minimum absolute difference. -/
def precisionWinners (price minD : Nat) (l : List PrecisionPrediction) :
    List PrecisionPrediction :=
  l.filter fun q => absDiff q.predicted_price price == minD

/-- Sum over the predictions of how much each user's pending winnings grew. -/
def precisionCreditsSum (s s1 : State) (l : List PrecisionPrediction) : Int :=
  (l.map fun q => s1.pending q.user - s.pending q.user).sum

/-- All-zero user statistics. -/
def emptyStats : UserStats :=
  { best_streak := 0, current_streak := 0, total_losses := 0, total_wins := 0 }

/-- A storage state with no entries at all. -/
def baseState : State :=
  { balances := fun _ => none
    pending := fun _ => 0
    stats := fun _ => emptyStats
    activeRound := none
    updownPositions := []
    precisionPositions := [] }

/-- A state whose one user is about to overflow the i128 balance on claim. -/
def stateOverflowClaim : State :=
  { baseState with
      balances := fun v => if v = 0 then some 1 else none
      pending := fun v => if v = 0 then I128_MAX else 0 }

/-- A concrete Up/Down round used by witnesses. -/
def roundA : Round :=
  { bet_end_ledger := 10
    end_ledger := 50
    mode := RoundMode.UpDown
    pool_down := 0
    pool_up := 0
    price_start := 1000000
    start_ledger := 1 }

/-- A concrete state holding `roundA` with nobody staked. -/
def stateA : State :=
  { baseState with activeRound := some roundA }

/-- A concrete oracle payload matching `roundA`. -/
def payloadA : OraclePayload :=
  { price := 1500000, round_id := 1, timestamp := 100 }

/-- A concrete state holding `roundA` where user 0 can stake. -/
def stateBet : State :=
  { baseState with
      activeRound := some roundA
      balances := fun v => if v = 0 then some 100 else none }

/-- An Up/Down round whose Up pool is already at the i128 maximum. -/
def roundPoolMax : Round :=
  { bet_end_ledger := 10
    end_ledger := 50
    mode := RoundMode.UpDown
    pool_down := 0
    pool_up := I128_MAX
    price_start := 1000000
    start_ledger := 1 }

/-- A concrete state where every gating condition for an Up bet holds but the
pool credit would overflow i128. -/
def statePoolMax : State :=
  { baseState with
      activeRound := some roundPoolMax
      balances := fun v => if v = 0 then some 5 else none }

/-- A concrete Up/Down round with 30 staked Up and 20 staked Down. -/
def roundB : Round :=
  { bet_end_ledger := 10
    end_ledger := 50
    mode := RoundMode.UpDown
    pool_down := 20
    pool_up := 30
    price_start := 1000000
    start_ledger := 1 }

/-- A concrete state holding `roundB` with user 0 on Up and user 1 on Down. -/
def stateB : State :=
  { baseState with
      activeRound := some roundB
      updownPositions := [(0, ⟨30, BetSide.Up⟩), (1, ⟨20, BetSide.Down⟩)] }

/-- A concrete oracle payload whose price equals `roundB`'s start price. -/
def payloadTie : OraclePayload :=
  { price := 1000000, round_id := 1, timestamp := 100 }

/-- A concrete Precision round. -/
def roundP : Round :=
  { bet_end_ledger := 10
    end_ledger := 50
    mode := RoundMode.Precision
    pool_down := 0
    pool_up := 0
    price_start := 1000000
    start_ledger := 1 }

/-- A concrete state holding `roundP` with two tied predictions. -/
def stateP : State :=
  { baseState with
      activeRound := some roundP
      precisionPositions := [⟨30, 1000, 0⟩, ⟨41, 990, 1⟩] }

/-- A concrete oracle payload equidistant from both predictions in `stateP`. -/
def payloadP : OraclePayload :=
  { price := 995, round_id := 1, timestamp := 100 }

end Xelma

namespace Xelma

theorem setAt_same {α : Type} (f : User → α) (u : User) (x : α) : setAt f u x u = x := by
  simp [setAt]

theorem setAt_other {α : Type} (f : User → α) (u : User) (x : α) (v : User) (h : v ≠ u) :
    setAt f u x v = f v := by
  simp [setAt, h]

/-- C9: the alias entry point `predict_price(user, guessed_price, amount)` has
exactly the same result and final state as
`place_precision_prediction(user, amount, predicted_price)` with
`guessed_price = predicted_price`, for every user, amount, price and state. -/
theorem predict_price_alias (now_ledger : Nat) (s : State) (u : User) (guessed_price : Nat)
    (amount : Int) :
    predict_price now_ledger s u guessed_price amount =
      place_precision_prediction now_ledger s u amount guessed_price := rfl

/-- C8: `mint_initial` is idempotent per user — a second call yields the same
final balance map and the same return value as a single call; it is a no-op
returning the existing balance, not an error. -/
theorem mint_initial_idem (s : State) (u : User) :
    mint_initial (mint_initial s u).2 u = mint_initial s u := by
  cases h : s.balances u with
  | some b => simp [mint_initial, h]
  | none => simp [mint_initial, h, setAt]

/-- C10: for a user with no existing balance entry, `mint_initial` credits and
returns exactly 10,000,000,000 stroops (1000 vXLM at 7 decimal places). -/
theorem mint_initial_fresh (s : State) (u : User) (h : s.balances u = none) :
    (mint_initial s u).1 = 10000000000 ∧
    balance (mint_initial s u).2 u = 10000000000 := by
  constructor
  · simp [mint_initial, h, INITIAL_BALANCE]
  · simp [mint_initial, h, balance, setAt, INITIAL_BALANCE]

theorem mint_initial_fresh_witness :
    baseState.balances 7 = none ∧
    ((mint_initial baseState 7).1 = 10000000000 ∧
      balance (mint_initial baseState 7).2 7 = 10000000000) :=
  ⟨rfl, mint_initial_fresh baseState 7 rfl⟩

/-- C7 (amended): provided the checked add of balance and pending winnings
does not overflow i128, `claim_winnings(user)` returns the user's pending
amount (0 if none), afterwards the user's pending winnings are 0 and the
balance has grown by exactly the returned amount, and no other user's pending
winnings or balance entry changes. -/
theorem claim_winnings_ok (s : State) (u : User)
    (h1 : I128_MIN ≤ balance s u + s.pending u)
    (h2 : balance s u + s.pending u ≤ I128_MAX) :
    claim_winnings s u = Except.ok (get_pending_winnings s u, claim_winnings_run s u) ∧
    get_pending_winnings (claim_winnings_run s u) u = 0 ∧
    balance (claim_winnings_run s u) u = balance s u + get_pending_winnings s u ∧
    (∀ v, v ≠ u → get_pending_winnings (claim_winnings_run s u) v = get_pending_winnings s v ∧
      (claim_winnings_run s u).balances v = s.balances v) := by
  have hc : checked_add (balance s u) (s.pending u) = some (balance s u + s.pending u) := by
    simp [checked_add, h1, h2]
  have hok : claim_winnings s u =
      Except.ok (s.pending u,
        { s with pending := setAt s.pending u 0,
                 balances := setAt s.balances u (some (balance s u + s.pending u)) }) := by
    simp only [claim_winnings]
    rw [hc]
  have hrun : claim_winnings_run s u =
      { s with pending := setAt s.pending u 0,
               balances := setAt s.balances u (some (balance s u + s.pending u)) } := by
    simp [claim_winnings_run, hok]
  refine ⟨?_, ?_, ?_, ?_⟩
  · rw [hok, hrun]
    rfl
  · rw [hrun]
    simp [get_pending_winnings, setAt]
  · rw [hrun]
    simp [get_pending_winnings, balance, setAt]
  · intro v hv
    rw [hrun]
    exact ⟨by simp [get_pending_winnings, setAt, hv], by simp [setAt, hv]⟩

theorem claim_winnings_ok_witness :
    I128_MIN ≤ balance stateOverflowClaim 1 + stateOverflowClaim.pending 1 ∧
    balance stateOverflowClaim 1 + stateOverflowClaim.pending 1 ≤ I128_MAX ∧
    (claim_winnings stateOverflowClaim 1 =
        Except.ok (get_pending_winnings stateOverflowClaim 1, claim_winnings_run stateOverflowClaim 1) ∧
      get_pending_winnings (claim_winnings_run stateOverflowClaim 1) 1 = 0 ∧
      balance (claim_winnings_run stateOverflowClaim 1) 1 =
        balance stateOverflowClaim 1 + get_pending_winnings stateOverflowClaim 1 ∧
      (∀ v, v ≠ 1 → get_pending_winnings (claim_winnings_run stateOverflowClaim 1) v =
          get_pending_winnings stateOverflowClaim v ∧
        (claim_winnings_run stateOverflowClaim 1).balances v = stateOverflowClaim.balances v)) :=
  ⟨by decide, by decide, claim_winnings_ok stateOverflowClaim 1 (by decide) (by decide)⟩

/-- C7 counterexample: at a concrete state where one user's balance plus
pending winnings exceeds the i128 maximum, `claim_winnings` does not return
the pending amount — it fails with `Overflow` — so the claim does not hold at
every state. -/
theorem claim_winnings_overflow_cex :
    claim_winnings stateOverflowClaim 0 = Except.error ContractError.Overflow ∧
    get_pending_winnings stateOverflowClaim 0 = I128_MAX := by
  constructor
  · rfl
  · rfl

/-- C4: with an active round, `resolve_round` fails `RoundNotEnded` before the
end marker; past it, a zero price fails `InvalidPrice`, a round identifier
differing from the start marker fails `InvalidOracleRound`, and data older
than the 300-unit freshness window fails `StaleOracleData`; every failure
leaves the observed state unchanged, and when none of the conditions hold
payload validation passes. -/
theorem resolve_round_validation (now_ledger now_time : Nat) (s : State) (p : OraclePayload)
    (r : Round) (hr : s.activeRound = some r) :
    (now_ledger < r.end_ledger →
      resolve_round now_ledger now_time s p = Except.error ContractError.RoundNotEnded) ∧
    (r.end_ledger ≤ now_ledger → p.price = 0 →
      resolve_round now_ledger now_time s p = Except.error ContractError.InvalidPrice) ∧
    (r.end_ledger ≤ now_ledger → p.price ≠ 0 → p.round_id ≠ r.start_ledger →
      resolve_round now_ledger now_time s p = Except.error ContractError.InvalidOracleRound) ∧
    (r.end_ledger ≤ now_ledger → p.price ≠ 0 → p.round_id = r.start_ledger →
      p.timestamp + 300 < now_time →
      resolve_round now_ledger now_time s p = Except.error ContractError.StaleOracleData) ∧
    (p.price ≠ 0 → p.round_id = r.start_ledger → now_time ≤ p.timestamp + 300 →
      validate_payload now_time p r = none) ∧
    (∀ e, resolve_round now_ledger now_time s p = Except.error e →
      resolve_round_run now_ledger now_time s p = s) := by
  refine ⟨?_, ?_, ?_, ?_, ?_, ?_⟩
  · intro h
    simp [resolve_round, hr, h]
  · intro h h0
    simp [resolve_round, hr, Nat.not_lt.2 h, validate_payload, h0]
  · intro h h0 hid
    simp [resolve_round, hr, Nat.not_lt.2 h, validate_payload, h0, hid]
  · intro h h0 hid hst
    simp [resolve_round, hr, Nat.not_lt.2 h, validate_payload, h0, hid, hst]
  · intro h0 hid hfr
    simp [validate_payload, h0, hid, Nat.not_lt.2 hfr]
  · intro e he
    simp [resolve_round_run, he]

theorem resolve_round_validation_witness :
    stateA.activeRound = some roundA ∧
    (0 : Nat) < roundA.end_ledger ∧
    resolve_round 0 0 stateA payloadA = Except.error ContractError.RoundNotEnded :=
  ⟨rfl, by decide,
    (resolve_round_validation 0 0 stateA payloadA roundA rfl).1 (by decide)⟩

theorem resolve_updown_ok_clears (s : State) (r : Round) (price : Nat) (s1 : State)
    (h : resolve_updown s r price = Except.ok s1) :
    s1.activeRound = none ∧ s1.updownPositions = [] ∧ s1.precisionPositions = [] := by
  unfold resolve_updown at h
  by_cases hc : price = r.price_start ∨ r.pool_up = 0 ∨ r.pool_down = 0
  · rw [if_pos hc] at h
    cases hra : refundAll s s.updownPositions with
    | none => rw [hra] at h; cases h
    | some s0 =>
        rw [hra] at h
        simp only [Except.ok.injEq] at h
        subst h
        simp [clearRound]
  · rw [if_neg hc] at h
    cases hpw : payWinners (winningSide r.price_start price) (winPool r price) (losePool r price)
        s s.updownPositions with
    | none => rw [hpw] at h; cases h
    | some s0 =>
        rw [hpw] at h
        simp only [Except.ok.injEq] at h
        subst h
        simp [clearRound]

theorem resolve_precision_ok_clears (s : State) (price : Nat) (s1 : State)
    (h : resolve_precision s price = Except.ok s1) :
    s1.activeRound = none ∧ s1.updownPositions = [] ∧ s1.precisionPositions = [] := by
  unfold resolve_precision at h
  repeat' split at h
  all_goals cases h
  all_goals simp [clearRound]

/-- C6: every successful `resolve_round`, in either mode, deletes the active
round and all mode-specific position and prediction records in the same
transition — afterwards `get_active_round` is `none` and both books are empty
— and a round with zero participants still resolves successfully, to the
cleared state with zero payouts. -/
theorem resolve_round_atomic_clear :
    (∀ now_ledger now_time s p s1,
      resolve_round now_ledger now_time s p = Except.ok s1 →
      get_active_round s1 = none ∧ s1.updownPositions = [] ∧ s1.precisionPositions = []) ∧
    (∀ now_ledger now_time s p r,
      s.activeRound = some r → r.end_ledger ≤ now_ledger → p.price ≠ 0 →
      p.round_id = r.start_ledger → now_time ≤ p.timestamp + 300 →
      s.updownPositions = [] → s.precisionPositions = [] →
      resolve_round now_ledger now_time s p = Except.ok (clearRound s)) := by
  constructor
  · intro now_ledger now_time s p s1 h
    cases hr : s.activeRound with
    | none =>
        simp only [resolve_round, hr] at h
        cases h
    | some r =>
        simp only [resolve_round, hr] at h
        by_cases hlt : now_ledger < r.end_ledger
        · rw [if_pos hlt] at h; cases h
        · rw [if_neg hlt] at h
          cases hv : validate_payload now_time p r with
          | some e => rw [hv] at h; cases h
          | none =>
              rw [hv] at h
              cases hm : r.mode with
              | UpDown =>
                  rw [hm] at h
                  exact resolve_updown_ok_clears s r p.price s1 h
              | Precision =>
                  rw [hm] at h
                  exact resolve_precision_ok_clears s p.price s1 h
  · intro now_ledger now_time s p r hr hend h0 hid hfr hud hpp
    have hv : validate_payload now_time p r = none := by
      simp [validate_payload, h0, hid, Nat.not_lt.2 hfr]
    cases hm : r.mode with
    | UpDown =>
        simp only [resolve_round, hr, Nat.not_lt.2 hend, if_neg, hv, hm]
        simp [resolve_updown, hud, refundAll, payWinners]
    | Precision =>
        simp only [resolve_round, hr, Nat.not_lt.2 hend, if_neg, hv, hm]
        simp [resolve_precision, hpp]

theorem resolve_round_atomic_clear_witness :
    stateA.activeRound = some roundA ∧
    roundA.end_ledger ≤ 50 ∧
    payloadA.price ≠ 0 ∧
    payloadA.round_id = roundA.start_ledger ∧
    (0 : Nat) ≤ payloadA.timestamp + 300 ∧
    stateA.updownPositions = [] ∧
    stateA.precisionPositions = [] ∧
    resolve_round 50 0 stateA payloadA = Except.ok (clearRound stateA) :=
  ⟨rfl, by decide, by decide, rfl, by decide, rfl, rfl,
    resolve_round_atomic_clear.2 50 0 stateA payloadA roundA rfl (by decide) (by decide) rfl
      (by decide) rfl rfl⟩

/-- C5 (amended): full gating of the two staking entry points. Each violated
condition yields its distinct error, in check order: `NoActiveRound` with no
round, `RoundEnded` past the betting window, `WrongModeForPrediction` on a
mode mismatch, `InvalidPriceScale` for a Precision guess outside 1–999999,
`InvalidBetAmount` for a non-positive amount, `InsufficientBalance` when the
balance is below the amount, and `AlreadyBet` on a second entry. When every
condition holds and the checked balance debit and pool credit fit in i128,
the call succeeds, debiting the balance by the amount and crediting the
side's pool (respectively growing the prediction pot) by the amount. -/
theorem place_entry_spec (now_ledger : Nat) (s : State) (u : User) (amount : Int)
    (side : BetSide) (predicted_price : Nat) (r : Round) :
    (s.activeRound = none →
      place_bet now_ledger s u amount side = Except.error ContractError.NoActiveRound ∧
      place_precision_prediction now_ledger s u amount predicted_price =
        Except.error ContractError.NoActiveRound) ∧
    (s.activeRound = some r → r.bet_end_ledger ≤ now_ledger →
      place_bet now_ledger s u amount side = Except.error ContractError.RoundEnded ∧
      place_precision_prediction now_ledger s u amount predicted_price =
        Except.error ContractError.RoundEnded) ∧
    (s.activeRound = some r → now_ledger < r.bet_end_ledger → r.mode ≠ RoundMode.UpDown →
      place_bet now_ledger s u amount side =
        Except.error ContractError.WrongModeForPrediction) ∧
    (s.activeRound = some r → now_ledger < r.bet_end_ledger → r.mode ≠ RoundMode.Precision →
      place_precision_prediction now_ledger s u amount predicted_price =
        Except.error ContractError.WrongModeForPrediction) ∧
    (s.activeRound = some r → now_ledger < r.bet_end_ledger → r.mode = RoundMode.Precision →
      (predicted_price = 0 ∨ 999999 < predicted_price) →
      place_precision_prediction now_ledger s u amount predicted_price =
        Except.error ContractError.InvalidPriceScale) ∧
    (s.activeRound = some r → now_ledger < r.bet_end_ledger → r.mode = RoundMode.UpDown →
      amount ≤ 0 →
      place_bet now_ledger s u amount side = Except.error ContractError.InvalidBetAmount) ∧
    (s.activeRound = some r → now_ledger < r.bet_end_ledger → r.mode = RoundMode.Precision →
      predicted_price ≠ 0 → predicted_price ≤ 999999 → amount ≤ 0 →
      place_precision_prediction now_ledger s u amount predicted_price =
        Except.error ContractError.InvalidBetAmount) ∧
    (s.activeRound = some r → now_ledger < r.bet_end_ledger → r.mode = RoundMode.UpDown →
      0 < amount → balance s u < amount →
      place_bet now_ledger s u amount side = Except.error ContractError.InsufficientBalance) ∧
    (s.activeRound = some r → now_ledger < r.bet_end_ledger → r.mode = RoundMode.Precision →
      predicted_price ≠ 0 → predicted_price ≤ 999999 → 0 < amount → balance s u < amount →
      place_precision_prediction now_ledger s u amount predicted_price =
        Except.error ContractError.InsufficientBalance) ∧
    (s.activeRound = some r → now_ledger < r.bet_end_ledger → r.mode = RoundMode.UpDown →
      0 < amount → amount ≤ balance s u → hasPosition s u = true →
      place_bet now_ledger s u amount side = Except.error ContractError.AlreadyBet) ∧
    (s.activeRound = some r → now_ledger < r.bet_end_ledger → r.mode = RoundMode.Precision →
      predicted_price ≠ 0 → predicted_price ≤ 999999 → 0 < amount → amount ≤ balance s u →
      hasPrediction s u = true →
      place_precision_prediction now_ledger s u amount predicted_price =
        Except.error ContractError.AlreadyBet) ∧
    (s.activeRound = some r → now_ledger < r.bet_end_ledger → r.mode = RoundMode.UpDown →
      0 < amount → amount ≤ balance s u → hasPosition s u = false →
      balance s u ≤ I128_MAX →
      0 ≤ (if side = BetSide.Up then r.pool_up else r.pool_down) →
      (if side = BetSide.Up then r.pool_up else r.pool_down) + amount ≤ I128_MAX →
      place_bet now_ledger s u amount side =
        Except.ok { s with
          balances := setAt s.balances u (some (balance s u - amount))
          activeRound := some (if side = BetSide.Up then
              { r with pool_up := r.pool_up + amount }
            else
              { r with pool_down := r.pool_down + amount })
          updownPositions := s.updownPositions ++ [(u, ⟨amount, side⟩)] }) ∧
    (s.activeRound = some r → now_ledger < r.bet_end_ledger → r.mode = RoundMode.Precision →
      predicted_price ≠ 0 → predicted_price ≤ 999999 → 0 < amount → amount ≤ balance s u →
      hasPrediction s u = false → balance s u ≤ I128_MAX →
      place_precision_prediction now_ledger s u amount predicted_price =
        Except.ok { s with
          balances := setAt s.balances u (some (balance s u - amount))
          precisionPositions := s.precisionPositions ++ [⟨amount, predicted_price, u⟩] } ∧
      potSum (s.precisionPositions ++ [⟨amount, predicted_price, u⟩]) =
        potSum s.precisionPositions + amount) := by
  refine ⟨?_, ?_, ?_, ?_, ?_, ?_, ?_, ?_, ?_, ?_, ?_, ?_, ?_⟩
  · intro hnone
    exact ⟨by simp [place_bet, hnone], by simp [place_precision_prediction, hnone]⟩
  · intro hr hle
    exact ⟨by simp [place_bet, hr, hle], by simp [place_precision_prediction, hr, hle]⟩
  · intro hr hlt hm
    simp [place_bet, hr, Nat.not_le.2 hlt, hm]
  · intro hr hlt hm
    simp [place_precision_prediction, hr, Nat.not_le.2 hlt, hm]
  · intro hr hlt hm hscale
    simp [place_precision_prediction, hr, Nat.not_le.2 hlt, hm, hscale]
  · intro hr hlt hm hamt
    simp [place_bet, hr, Nat.not_le.2 hlt, hm, hamt]
  · intro hr hlt hm hpp0 hpple hamt
    simp [place_precision_prediction, hr, Nat.not_le.2 hlt, hm, hpp0, Nat.not_lt.2 hpple, hamt]
  · intro hr hlt hm hamt hins
    simp [place_bet, hr, Nat.not_le.2 hlt, hm, not_le.2 hamt, hins]
  · intro hr hlt hm hpp0 hpple hamt hins
    simp [place_precision_prediction, hr, Nat.not_le.2 hlt, hm, hpp0, Nat.not_lt.2 hpple,
      not_le.2 hamt, hins]
  · intro hr hlt hm hamt hba hbet
    simp [place_bet, hr, Nat.not_le.2 hlt, hm, not_le.2 hamt, not_lt.2 hba, hbet]
  · intro hr hlt hm hpp0 hpple hamt hba hbet
    simp [place_precision_prediction, hr, Nat.not_le.2 hlt, hm, hpp0, Nat.not_lt.2 hpple,
      not_le.2 hamt, not_lt.2 hba, hbet]
  · intro hr hlt hm hamt hba hbet hbal hp0 hp1
    have hsub : checked_sub (balance s u) amount = some (balance s u - amount) := by
      have k1 : I128_MIN ≤ balance s u - amount := by
        simp only [I128_MIN]
        omega
      have k2 : balance s u - amount ≤ I128_MAX := by
        simp only [I128_MAX] at hbal ⊢
        omega
      simp [checked_sub, k1, k2]
    cases side with
    | Up =>
        rw [if_pos (rfl : BetSide.Up = BetSide.Up)] at hp0 hp1
        have hadd : checked_add r.pool_up amount = some (r.pool_up + amount) := by
          have k1 : I128_MIN ≤ r.pool_up + amount := by
            simp only [I128_MIN]
            omega
          simp [checked_add, k1, hp1]
        simp [place_bet, hr, Nat.not_le.2 hlt, hm, not_le.2 hamt, not_lt.2 hba, hbet,
          hsub, hadd]
    | Down =>
        rw [if_neg (by decide : ¬(BetSide.Down = BetSide.Up))] at hp0 hp1
        have hadd : checked_add r.pool_down amount = some (r.pool_down + amount) := by
          have k1 : I128_MIN ≤ r.pool_down + amount := by
            simp only [I128_MIN]
            omega
          simp [checked_add, k1, hp1]
        simp [place_bet, hr, Nat.not_le.2 hlt, hm, not_le.2 hamt, not_lt.2 hba, hbet,
          hsub, hadd]
  · intro hr hlt hm hpp0 hpple hamt hba hbet hbal
    have hsub : checked_sub (balance s u) amount = some (balance s u - amount) := by
      have k1 : I128_MIN ≤ balance s u - amount := by
        simp only [I128_MIN]
        omega
      have k2 : balance s u - amount ≤ I128_MAX := by
        simp only [I128_MAX] at hbal ⊢
        omega
      simp [checked_sub, k1, k2]
    constructor
    · simp [place_precision_prediction, hr, Nat.not_le.2 hlt, hm, hpp0, Nat.not_lt.2 hpple,
        not_le.2 hamt, not_lt.2 hba, hbet, hsub]
    · simp [potSum]

theorem place_entry_spec_witness :
    stateBet.activeRound = some roundA ∧
    (0 : Nat) < roundA.bet_end_ledger ∧
    roundA.mode = RoundMode.UpDown ∧
    (0 : Int) < 40 ∧
    (40 : Int) ≤ balance stateBet 0 ∧
    hasPosition stateBet 0 = false ∧
    balance stateBet 0 ≤ I128_MAX ∧
    (0 : Int) ≤ roundA.pool_up ∧
    roundA.pool_up + 40 ≤ I128_MAX ∧
    place_bet 0 stateBet 0 40 BetSide.Up =
      Except.ok { stateBet with
        balances := setAt stateBet.balances 0 (some (balance stateBet 0 - 40))
        activeRound := some { roundA with pool_up := roundA.pool_up + 40 }
        updownPositions := stateBet.updownPositions ++ [(0, ⟨40, BetSide.Up⟩)] } :=
  ⟨rfl, by decide, rfl, by decide, by decide, rfl, by decide, by decide, by decide,
    (place_entry_spec 0 stateBet 0 40 BetSide.Up 0 roundA).2.2.2.2.2.2.2.2.2.2.2.1
      rfl (by decide) rfl (by decide) (by decide) rfl (by decide) (by decide) (by decide)⟩

theorem checked_add_some {a b c : Int} (h : checked_add a b = some c) : c = a + b := by
  simp only [checked_add] at h
  split at h
  · exact (Option.some.inj h).symm
  · cases h

theorem checked_mul_some {a b c : Int} (h : checked_mul a b = some c) : c = a * b := by
  simp only [checked_mul] at h
  split at h
  · exact (Option.some.inj h).symm
  · cases h

theorem creditPending_some {s : State} {u : User} {amt : Int} {s1 : State}
    (h : creditPending s u amt = some s1) :
    s1 = { s with pending := setAt s.pending u (s.pending u + amt) } := by
  simp only [creditPending] at h
  cases hc : checked_add (s.pending u) amt with
  | none => rw [hc] at h; cases h
  | some np =>
      rw [hc] at h
      cases h
      rw [checked_add_some hc]

theorem refundAll_spec (ps : List (User × UserPosition)) :
    ∀ (s s1 : State), refundAll s ps = some s1 → (ps.map Prod.fst).Nodup →
      (∀ q ∈ ps, s1.pending q.1 = s.pending q.1 + q.2.amount) ∧
      (∀ v, v ∉ ps.map Prod.fst → s1.pending v = s.pending v) ∧
      s1.stats = s.stats ∧ s1.balances = s.balances ∧
      s1.activeRound = s.activeRound ∧ s1.updownPositions = s.updownPositions ∧
      s1.precisionPositions = s.precisionPositions := by
  induction ps with
  | nil =>
      intro s s1 h _
      simp only [refundAll] at h
      cases h
      exact ⟨by simp, fun v _ => rfl, rfl, rfl, rfl, rfl, rfl⟩
  | cons head rest ih =>
      intro s s1 h hnd
      obtain ⟨u, pos⟩ := head
      have hnd' : (u :: rest.map Prod.fst).Nodup := by simpa using hnd
      have hu : u ∉ rest.map Prod.fst := (List.nodup_cons.1 hnd').1
      have hnd1 : (rest.map Prod.fst).Nodup := (List.nodup_cons.1 hnd').2
      simp only [refundAll] at h
      cases hc : creditPending s u pos.amount with
      | none => rw [hc] at h; cases h
      | some sMid =>
          rw [hc] at h
          obtain ⟨ih1, ih2, ih3, ih4, ih5, ih6, ih7⟩ := ih sMid s1 h hnd1
          have hsM := creditPending_some hc
          subst hsM
          refine ⟨?_, ?_, ih3, ih4, ih5, ih6, ih7⟩
          · intro q hq
            rcases List.mem_cons.1 hq with hq1 | hq1
            · subst hq1
              rw [ih2 u hu]
              simp [setAt]
            · have hne : q.1 ≠ u := by
                intro he
                exact hu (he ▸ List.mem_map_of_mem Prod.fst hq1)
              rw [ih1 q hq1]
              simp [setAt, hne]
          · intro v hv
            have hv1 : v ≠ u := by
              intro he
              exact hv (by simp [he])
            have hv2 : v ∉ rest.map Prod.fst := by
              intro he
              exact hv (by simp [he])
            rw [ih2 v hv2]
            simp [setAt, hv1]

theorem payWinners_spec (winner : BetSide) (W L : Int) (ps : List (User × UserPosition)) :
    ∀ (s s1 : State), payWinners winner W L s ps = some s1 → (ps.map Prod.fst).Nodup →
      (∀ q ∈ ps, q.2.side = winner →
        s1.pending q.1 = s.pending q.1 + (q.2.amount + (q.2.amount * L).tdiv W)) ∧
      (∀ q ∈ ps, q.2.side ≠ winner → s1.pending q.1 = s.pending q.1) ∧
      (∀ v, v ∉ ps.map Prod.fst → s1.pending v = s.pending v) ∧
      s1.balances = s.balances ∧ s1.activeRound = s.activeRound ∧
      s1.updownPositions = s.updownPositions ∧ s1.precisionPositions = s.precisionPositions := by
  induction ps with
  | nil =>
      intro s s1 h _
      simp only [payWinners] at h
      cases h
      exact ⟨by simp, by simp, fun v _ => rfl, rfl, rfl, rfl, rfl⟩
  | cons head rest ih =>
      intro s s1 h hnd
      obtain ⟨u, pos⟩ := head
      have hnd' : (u :: rest.map Prod.fst).Nodup := by simpa using hnd
      have hu : u ∉ rest.map Prod.fst := (List.nodup_cons.1 hnd').1
      have hnd1 : (rest.map Prod.fst).Nodup := (List.nodup_cons.1 hnd').2
      simp only [payWinners] at h
      by_cases hside : pos.side = winner
      · rw [if_pos hside] at h
        split at h
        · cases h
        · rename_i num hmul
          split at h
          · cases h
          · rename_i payout hadd
            split at h
            · cases h
            · rename_i sMid hcp
              obtain ⟨ih1, ih2, ih3, ih4, ih5, ih6, ih7⟩ :=
                ih { sMid with stats := setAt sMid.stats u (recordWin (sMid.stats u)) }
                  s1 h hnd1
              have hsM := creditPending_some hcp
              subst hsM
              have hpay : payout = pos.amount + (pos.amount * L).tdiv W := by
                rw [checked_add_some hadd, checked_mul_some hmul]
              refine ⟨?_, ?_, ?_, ih4, ih5, ih6, ih7⟩
              · intro q hq hqs
                rcases List.mem_cons.1 hq with hq1 | hq1
                · subst hq1
                  rw [ih3 u hu]
                  simp [setAt, hpay]
                · have hne : q.1 ≠ u := by
                    intro he
                    exact hu (he ▸ List.mem_map_of_mem Prod.fst hq1)
                  rw [ih1 q hq1 hqs]
                  simp [setAt, hne]
              · intro q hq hqs
                rcases List.mem_cons.1 hq with hq1 | hq1
                · subst hq1
                  exact absurd hside hqs
                · have hne : q.1 ≠ u := by
                    intro he
                    exact hu (he ▸ List.mem_map_of_mem Prod.fst hq1)
                  rw [ih2 q hq1 hqs]
                  simp [setAt, hne]
              · intro v hv
                have hv1 : v ≠ u := by
                  intro he
                  exact hv (by simp [he])
                have hv2 : v ∉ rest.map Prod.fst := by
                  intro he
                  exact hv (by simp [he])
                rw [ih3 v hv2]
                simp [setAt, hv1]
      · rw [if_neg hside] at h
        obtain ⟨ih1, ih2, ih3, ih4, ih5, ih6, ih7⟩ :=
          ih { s with stats := setAt s.stats u (recordLoss (s.stats u)) } s1 h hnd1
        refine ⟨?_, ?_, ?_, ih4, ih5, ih6, ih7⟩
        · intro q hq hqs
          rcases List.mem_cons.1 hq with hq1 | hq1
          · subst hq1
            exact absurd hqs hside
          · exact ih1 q hq1 hqs
        · intro q hq hqs
          rcases List.mem_cons.1 hq with hq1 | hq1
          · subst hq1
            exact ih3 u hu
          · exact ih2 q hq1 hqs
        · intro v hv
          have hv2 : v ∉ rest.map Prod.fst := by
            intro he
            exact hv (by simp [he])
          exact ih3 v hv2

theorem payPrecision_spec (price minD : Nat) (payout : Int) (ps : List PrecisionPrediction) :
    ∀ (s s1 : State), payPrecision price minD payout s ps = some s1 →
      (ps.map fun q => q.user).Nodup →
      (∀ q ∈ ps, absDiff q.predicted_price price = minD →
        s1.pending q.user = s.pending q.user + payout) ∧
      (∀ q ∈ ps, absDiff q.predicted_price price ≠ minD →
        s1.pending q.user = s.pending q.user) ∧
      (∀ v, v ∉ ps.map (fun q => q.user) → s1.pending v = s.pending v) ∧
      s1.balances = s.balances ∧ s1.activeRound = s.activeRound ∧
      s1.updownPositions = s.updownPositions ∧ s1.precisionPositions = s.precisionPositions := by
  induction ps with
  | nil =>
      intro s s1 h _
      simp only [payPrecision] at h
      cases h
      exact ⟨by simp, by simp, fun v _ => rfl, rfl, rfl, rfl, rfl⟩
  | cons q0 rest ih =>
      intro s s1 h hnd
      have hnd' : (q0.user :: rest.map fun q => q.user).Nodup := by simpa using hnd
      have hu : q0.user ∉ rest.map fun q => q.user := (List.nodup_cons.1 hnd').1
      have hnd1 : (rest.map fun q => q.user).Nodup := (List.nodup_cons.1 hnd').2
      simp only [payPrecision] at h
      by_cases hdq : absDiff q0.predicted_price price = minD
      · rw [if_pos hdq] at h
        cases hcp : creditPending s q0.user payout with
        | none => rw [hcp] at h; cases h
        | some sMid =>
            rw [hcp] at h
            obtain ⟨ih1, ih2, ih3, ih4, ih5, ih6, ih7⟩ :=
              ih { sMid with stats := setAt sMid.stats q0.user (recordWin (sMid.stats q0.user)) }
                s1 h hnd1
            have hsM := creditPending_some hcp
            subst hsM
            refine ⟨?_, ?_, ?_, ih4, ih5, ih6, ih7⟩
            · intro q hq hqd
              rcases List.mem_cons.1 hq with hq1 | hq1
              · subst hq1
                rw [ih3 q.user hu]
                simp [setAt]
              · have hne : q.user ≠ q0.user := by
                  intro he
                  exact hu (he ▸ List.mem_map_of_mem (fun x => x.user) hq1)
                rw [ih1 q hq1 hqd]
                simp [setAt, hne]
            · intro q hq hqd
              rcases List.mem_cons.1 hq with hq1 | hq1
              · subst hq1
                exact absurd hdq hqd
              · have hne : q.user ≠ q0.user := by
                  intro he
                  exact hu (he ▸ List.mem_map_of_mem (fun x => x.user) hq1)
                rw [ih2 q hq1 hqd]
                simp [setAt, hne]
            · intro v hv
              have hv1 : v ≠ q0.user := by
                intro he
                exact hv (by simp [he])
              have hv2 : v ∉ rest.map fun q => q.user := by
                intro he
                exact hv (by simp [he])
              rw [ih3 v hv2]
              simp [setAt, hv1]
      · rw [if_neg hdq] at h
        obtain ⟨ih1, ih2, ih3, ih4, ih5, ih6, ih7⟩ :=
          ih { s with stats := setAt s.stats q0.user (recordLoss (s.stats q0.user)) } s1 h hnd1
        refine ⟨?_, ?_, ?_, ih4, ih5, ih6, ih7⟩
        · intro q hq hqd
          rcases List.mem_cons.1 hq with hq1 | hq1
          · subst hq1
            exact absurd hqd hdq
          · exact ih1 q hq1 hqd
        · intro q hq hqd
          rcases List.mem_cons.1 hq with hq1 | hq1
          · subst hq1
            exact ih3 q.user hu
          · exact ih2 q hq1 hqd
        · intro v hv
          have hv2 : v ∉ rest.map fun q => q.user := by
            intro he
            exact hv (by simp [he])
          exact ih3 v hv2

/-- C3: when an Up/Down round is resolved with an observed price equal to the
start price, or with one side empty, every recorded position's stake is
returned unchanged to that user's pending winnings, no other pending amount
moves, and no user's stats (wins, losses, streaks) change. -/
theorem resolve_updown_refund_spec (now_ledger now_time : Nat) (s : State) (p : OraclePayload)
    (r : Round) (s1 : State)
    (hr : s.activeRound = some r)
    (hmode : r.mode = RoundMode.UpDown)
    (hnodup : (s.updownPositions.map Prod.fst).Nodup)
    (hup : r.pool_up = sideAmounts BetSide.Up s.updownPositions)
    (hdown : r.pool_down = sideAmounts BetSide.Down s.updownPositions)
    (hcond : p.price = r.price_start ∨
      (s.updownPositions.filter fun q => decide (q.2.side = BetSide.Up)) = [] ∨
      (s.updownPositions.filter fun q => decide (q.2.side = BetSide.Down)) = [])
    (hok : resolve_round now_ledger now_time s p = Except.ok s1) :
    (∀ q ∈ s.updownPositions, s1.pending q.1 = s.pending q.1 + q.2.amount) ∧
    (∀ v, v ∉ s.updownPositions.map Prod.fst → s1.pending v = s.pending v) ∧
    (∀ v, s1.stats v = s.stats v) := by
  simp only [resolve_round, hr] at hok
  split at hok
  · cases hok
  · split at hok
    · cases hok
    · rw [hmode] at hok
      have hok2 : resolve_updown s r p.price = Except.ok s1 := hok
      have hcode : p.price = r.price_start ∨ r.pool_up = 0 ∨ r.pool_down = 0 := by
        rcases hcond with hc | hc | hc
        · exact Or.inl hc
        · refine Or.inr (Or.inl ?_)
          rw [hup, sideAmounts, hc]
          rfl
        · refine Or.inr (Or.inr ?_)
          rw [hdown, sideAmounts, hc]
          rfl
      unfold resolve_updown at hok2
      rw [if_pos hcode] at hok2
      cases hra : refundAll s s.updownPositions with
      | none => rw [hra] at hok2; cases hok2
      | some s0 =>
          rw [hra] at hok2
          cases hok2
          obtain ⟨h1, h2, h3, _, _, _, _⟩ := refundAll_spec s.updownPositions s s0 hra hnodup
          exact ⟨fun q hq => h1 q hq, fun v hv => h2 v hv, fun v => congrFun h3 v⟩

theorem resolve_updown_refund_spec_witness :
    stateB.activeRound = some roundB ∧
    roundB.mode = RoundMode.UpDown ∧
    (stateB.updownPositions.map Prod.fst).Nodup ∧
    roundB.pool_up = sideAmounts BetSide.Up stateB.updownPositions ∧
    roundB.pool_down = sideAmounts BetSide.Down stateB.updownPositions ∧
    payloadTie.price = roundB.price_start ∧
    resolve_round 50 0 stateB payloadTie =
      Except.ok (resolve_round_run 50 0 stateB payloadTie) ∧
    ((∀ q ∈ stateB.updownPositions,
        (resolve_round_run 50 0 stateB payloadTie).pending q.1 =
          stateB.pending q.1 + q.2.amount) ∧
      (∀ v, v ∉ stateB.updownPositions.map Prod.fst →
        (resolve_round_run 50 0 stateB payloadTie).pending v = stateB.pending v) ∧
      (∀ v, (resolve_round_run 50 0 stateB payloadTie).stats v = stateB.stats v)) :=
  ⟨rfl, rfl, by decide, by decide, by decide, rfl, rfl,
    resolve_updown_refund_spec 50 0 stateB payloadTie roundB
      (resolve_round_run 50 0 stateB payloadTie) rfl rfl (by decide) (by decide) (by decide)
      (Or.inl rfl) rfl⟩

theorem sum_map_mul_right_int (L : Int) :
    ∀ (l : List Int), (l.map fun a => a * L).sum = l.sum * L := by
  intro l
  induction l with
  | nil => simp
  | cons a xs ih =>
      simp only [List.map_cons, List.sum_cons, ih]
      ring

theorem sum_map_ite_filter {α : Type} (p : α → Prop) [DecidablePred p] (f : α → Int) :
    ∀ (l : List α),
      (l.map fun x => if p x then f x else 0).sum =
        ((l.filter fun x => decide (p x)).map f).sum := by
  intro l
  induction l with
  | nil => simp
  | cons x xs ih =>
      by_cases h : p x
      · simp [h, ih]
      · simp [h, ih]

theorem sum_tdiv_bounds (L W : Int) (hW : 0 < W) (hL : 0 ≤ L) :
    ∀ (l : List Int), (∀ a ∈ l, 0 ≤ a) →
      ((l.map fun a => (a * L).tdiv W).sum) * W ≤ (l.map fun a => a * L).sum ∧
      (l.map fun a => a * L).sum + l.length ≤
        (((l.map fun a => (a * L).tdiv W).sum) + l.length) * W := by
  intro l
  induction l with
  | nil =>
      intro _
      constructor <;> simp
  | cons a xs ih =>
      intro hpos
      have ha : 0 ≤ a := hpos a (List.mem_cons_self a xs)
      have hx : 0 ≤ a * L := mul_nonneg ha hL
      have htd : (a * L).tdiv W = (a * L) / W := Int.tdiv_eq_ediv hx (le_of_lt hW)
      have h1 : ((a * L).tdiv W) * W ≤ a * L := by
        rw [htd]
        exact Int.ediv_mul_le (a * L) (ne_of_gt hW)
      have h2 : a * L + 1 ≤ ((a * L).tdiv W + 1) * W := by
        rw [htd]
        exact Int.add_one_le_iff.2 (Int.lt_ediv_add_one_mul_self (a * L) hW)
      obtain ⟨ih1, ih2⟩ := ih (fun b hb => hpos b (List.mem_cons_of_mem a hb))
      constructor
      · simp only [List.map_cons, List.sum_cons]
        calc ((a * L).tdiv W + (xs.map fun a => (a * L).tdiv W).sum) * W
            = ((a * L).tdiv W) * W + ((xs.map fun a => (a * L).tdiv W).sum) * W := by ring
          _ ≤ a * L + (xs.map fun a => a * L).sum := add_le_add h1 ih1
      · simp only [List.map_cons, List.sum_cons, List.length_cons]
        push_cast
        calc a * L + (xs.map fun a => a * L).sum + ((xs.length : Int) + 1)
            = (a * L + 1) + ((xs.map fun a => a * L).sum + (xs.length : Int)) := by ring
          _ ≤ ((a * L).tdiv W + 1) * W +
                ((xs.map fun a => (a * L).tdiv W).sum + (xs.length : Int)) * W :=
              add_le_add h2 ih2
          _ = ((a * L).tdiv W + (xs.map fun a => (a * L).tdiv W).sum +
                ((xs.length : Int) + 1)) * W := by ring

theorem winners_share_bounds (W L : Int) (hW : 0 < W) (hL : 0 ≤ L) (A : List Int)
    (hpos : ∀ a ∈ A, 0 < a) (hsum : A.sum = W) (hne : A ≠ []) :
    L - ((A.length : Int) - 1) ≤ (A.map fun a => (a * L).tdiv W).sum ∧
    (A.map fun a => (a * L).tdiv W).sum ≤ L := by
  obtain ⟨h1, h2⟩ := sum_tdiv_bounds L W hW hL A (fun a ha => le_of_lt (hpos a ha))
  rw [sum_map_mul_right_int, hsum] at h1 h2
  have hn1 : 1 ≤ (A.length : Int) := by
    cases A with
    | nil => exact absurd rfl hne
    | cons a xs =>
        simp only [List.length_cons]
        push_cast
        omega
  constructor
  · by_contra hcon
    push_neg at hcon
    have hTn : (A.map fun a => (a * L).tdiv W).sum + (A.length : Int) ≤ L := by linarith
    have h3 : ((A.map fun a => (a * L).tdiv W).sum + (A.length : Int)) * W ≤ L * W :=
      mul_le_mul_of_nonneg_right hTn (le_of_lt hW)
    nlinarith
  · have h4 : ((A.map fun a => (a * L).tdiv W).sum) * W ≤ L * W := by nlinarith
    exact le_of_mul_le_mul_right h4 hW

theorem payout_core (s s0 : State) (ps : List (User × UserPosition)) (winner : BetSide)
    (W L : Int)
    (hpw : payWinners winner W L s ps = some s0)
    (hnodup : (ps.map Prod.fst).Nodup)
    (hpos : ∀ q ∈ ps, 0 < q.2.amount)
    (hWs : W = sideAmounts winner ps)
    (hfil : (ps.filter fun q => decide (q.2.side = winner)) ≠ [])
    (hL : 0 ≤ L) :
    (∀ q ∈ ps, q.2.side = winner →
      s0.pending q.1 = s.pending q.1 + (q.2.amount + q.2.amount * L / W)) ∧
    (∀ q ∈ ps, q.2.side ≠ winner → s0.pending q.1 = s.pending q.1) ∧
    (W + L - (((ps.filter fun q => decide (q.2.side = winner)).length : Int) - 1) ≤
        (ps.map fun q => s0.pending q.1 - s.pending q.1).sum ∧
      (ps.map fun q => s0.pending q.1 - s.pending q.1).sum ≤ W + L) := by
  obtain ⟨w1, w2, w3, _, _, _, _⟩ := payWinners_spec winner W L ps s s0 hpw hnodup
  have hfil_pos : ∀ a ∈ ((ps.filter fun q => decide (q.2.side = winner)).map
      fun q => q.2.amount), 0 < a := by
    intro a ha
    obtain ⟨q, hqf, rfl⟩ := List.mem_map.1 ha
    exact hpos q (List.mem_filter.1 hqf).1
  have hmapne : ((ps.filter fun q => decide (q.2.side = winner)).map
      fun q => q.2.amount) ≠ [] := by
    intro he
    exact hfil (List.map_eq_nil_iff.1 he)
  have hW0 : 0 < W := by
    rw [hWs, sideAmounts]
    exact List.sum_pos _ hfil_pos hmapne
  have hsumA : ((ps.filter fun q => decide (q.2.side = winner)).map
      fun q => q.2.amount).sum = W := hWs.symm
  refine ⟨?_, w2, ?_⟩
  · intro q hq hqs
    rw [w1 q hq hqs,
      Int.tdiv_eq_ediv (mul_nonneg (le_of_lt (hpos q hq)) hL) (le_of_lt hW0)]
  · have hmap : (ps.map fun q => s0.pending q.1 - s.pending q.1) =
        ps.map fun q => if q.2.side = winner then
          q.2.amount + (q.2.amount * L).tdiv W else 0 := by
      refine List.map_congr_left ?_
      intro q hq
      by_cases hqs : q.2.side = winner
      · rw [if_pos hqs, w1 q hq hqs]
        ring
      · rw [if_neg hqs, w2 q hq hqs]
        ring
    obtain ⟨hlo, hhi⟩ := winners_share_bounds W L hW0 hL _ hfil_pos hsumA hmapne
    rw [List.map_map] at hlo hhi
    simp only [Function.comp_def] at hlo hhi
    rw [List.length_map] at hlo
    rw [hmap, sum_map_ite_filter, List.sum_map_add, hsumA]
    constructor
    · linarith
    · linarith

/-- C1: when an Up/Down round with both sides staked is resolved at a price
strictly different from the start price, every winning position is credited
exactly `amount + floor(amount * losing_pool / winning_pool)` to pending
winnings, every losing position is credited nothing, and the total credited
lies between `winning_pool + losing_pool - (winner_count - 1)` and
`winning_pool + losing_pool` — conservation up to the truncating-division
remainder. -/
theorem resolve_updown_payout_spec (now_ledger now_time : Nat) (s : State) (p : OraclePayload)
    (r : Round) (s1 : State)
    (hr : s.activeRound = some r)
    (hmode : r.mode = RoundMode.UpDown)
    (hnodup : (s.updownPositions.map Prod.fst).Nodup)
    (hpos : ∀ q ∈ s.updownPositions, 0 < q.2.amount)
    (hup : r.pool_up = sideAmounts BetSide.Up s.updownPositions)
    (hdown : r.pool_down = sideAmounts BetSide.Down s.updownPositions)
    (hneq : p.price ≠ r.price_start)
    (hupne : (s.updownPositions.filter fun q => decide (q.2.side = BetSide.Up)) ≠ [])
    (hdownne : (s.updownPositions.filter fun q => decide (q.2.side = BetSide.Down)) ≠ [])
    (hok : resolve_round now_ledger now_time s p = Except.ok s1) :
    (∀ q ∈ s.updownPositions, q.2.side = winningSide r.price_start p.price →
      s1.pending q.1 = s.pending q.1 +
        (q.2.amount + q.2.amount * losePool r p.price / winPool r p.price)) ∧
    (∀ q ∈ s.updownPositions, q.2.side ≠ winningSide r.price_start p.price →
      s1.pending q.1 = s.pending q.1) ∧
    (winPool r p.price + losePool r p.price -
        ((winnerCountUD (winningSide r.price_start p.price) s.updownPositions : Int) - 1) ≤
        creditsSum s s1 s.updownPositions ∧
      creditsSum s s1 s.updownPositions ≤ winPool r p.price + losePool r p.price) := by
  simp only [resolve_round, hr] at hok
  split at hok
  · cases hok
  · split at hok
    · cases hok
    · rw [hmode] at hok
      have hok2 : resolve_updown s r p.price = Except.ok s1 := hok
      have hupos : 0 < r.pool_up := by
        rw [hup, sideAmounts]
        refine List.sum_pos _ ?_ ?_
        · intro a ha
          obtain ⟨q, hqf, rfl⟩ := List.mem_map.1 ha
          exact hpos q (List.mem_filter.1 hqf).1
        · intro he
          exact hupne (List.map_eq_nil_iff.1 he)
      have hdpos : 0 < r.pool_down := by
        rw [hdown, sideAmounts]
        refine List.sum_pos _ ?_ ?_
        · intro a ha
          obtain ⟨q, hqf, rfl⟩ := List.mem_map.1 ha
          exact hpos q (List.mem_filter.1 hqf).1
        · intro he
          exact hdownne (List.map_eq_nil_iff.1 he)
      have hcode : ¬(p.price = r.price_start ∨ r.pool_up = 0 ∨ r.pool_down = 0) := by
        push_neg
        exact ⟨hneq, ne_of_gt hupos, ne_of_gt hdpos⟩
      unfold resolve_updown at hok2
      rw [if_neg hcode] at hok2
      cases hpw : payWinners (winningSide r.price_start p.price) (winPool r p.price)
          (losePool r p.price) s s.updownPositions with
      | none => rw [hpw] at hok2; cases hok2
      | some s0 =>
          rw [hpw] at hok2
          cases hok2
          have hcase : (winningSide r.price_start p.price = BetSide.Up ∧
              winPool r p.price = r.pool_up ∧ losePool r p.price = r.pool_down) ∨
              (winningSide r.price_start p.price = BetSide.Down ∧
              winPool r p.price = r.pool_down ∧ losePool r p.price = r.pool_up) := by
            by_cases hc : r.price_start < p.price
            · refine Or.inl ?_
              have hw : winningSide r.price_start p.price = BetSide.Up := by
                simp [winningSide, hc]
              exact ⟨hw, by simp [winPool, hw], by simp [losePool, hw]⟩
            · refine Or.inr ?_
              have hw : winningSide r.price_start p.price = BetSide.Down := by
                simp [winningSide, hc]
              exact ⟨hw, by simp [winPool, hw], by simp [losePool, hw]⟩
          have hWs : winPool r p.price =
              sideAmounts (winningSide r.price_start p.price) s.updownPositions := by
            rcases hcase with ⟨hw, hWp, hLp⟩ | ⟨hw, hWp, hLp⟩
            · rw [hw, hWp]
              exact hup
            · rw [hw, hWp]
              exact hdown
          have hfil : (s.updownPositions.filter fun q =>
              decide (q.2.side = winningSide r.price_start p.price)) ≠ [] := by
            rcases hcase with ⟨hw, hWp, hLp⟩ | ⟨hw, hWp, hLp⟩
            · rw [hw]
              exact hupne
            · rw [hw]
              exact hdownne
          have hL0 : 0 ≤ losePool r p.price := by
            rcases hcase with ⟨hw, hWp, hLp⟩ | ⟨hw, hWp, hLp⟩
            · rw [hLp]
              exact le_of_lt hdpos
            · rw [hLp]
              exact le_of_lt hupos
          exact payout_core s s0 s.updownPositions (winningSide r.price_start p.price)
            (winPool r p.price) (losePool r p.price) hpw hnodup hpos hWs hfil hL0

theorem resolve_updown_payout_spec_witness :
    stateB.activeRound = some roundB ∧
    roundB.mode = RoundMode.UpDown ∧
    (stateB.updownPositions.map Prod.fst).Nodup ∧
    (∀ q ∈ stateB.updownPositions, 0 < q.2.amount) ∧
    roundB.pool_up = sideAmounts BetSide.Up stateB.updownPositions ∧
    roundB.pool_down = sideAmounts BetSide.Down stateB.updownPositions ∧
    payloadA.price ≠ roundB.price_start ∧
    resolve_round 50 0 stateB payloadA =
      Except.ok (resolve_round_run 50 0 stateB payloadA) ∧
    ((∀ q ∈ stateB.updownPositions,
        q.2.side = winningSide roundB.price_start payloadA.price →
        (resolve_round_run 50 0 stateB payloadA).pending q.1 =
          stateB.pending q.1 + (q.2.amount +
            q.2.amount * losePool roundB payloadA.price / winPool roundB payloadA.price)) ∧
      (∀ q ∈ stateB.updownPositions,
        q.2.side ≠ winningSide roundB.price_start payloadA.price →
        (resolve_round_run 50 0 stateB payloadA).pending q.1 = stateB.pending q.1) ∧
      (winPool roundB payloadA.price + losePool roundB payloadA.price -
          ((winnerCountUD (winningSide roundB.price_start payloadA.price)
            stateB.updownPositions : Int) - 1) ≤
          creditsSum stateB (resolve_round_run 50 0 stateB payloadA) stateB.updownPositions ∧
        creditsSum stateB (resolve_round_run 50 0 stateB payloadA) stateB.updownPositions ≤
          winPool roundB payloadA.price + losePool roundB payloadA.price)) :=
  ⟨rfl, rfl, by decide, by decide, by decide, by decide, by decide, rfl,
    resolve_updown_payout_spec 50 0 stateB payloadA roundB
      (resolve_round_run 50 0 stateB payloadA) rfl rfl (by decide) (by decide) (by decide)
      (by decide) (by decide) (by decide) (by decide) rfl⟩

theorem sum_map_const_int {α : Type} (c : Int) :
    ∀ (l : List α), (l.map fun _ => c).sum = l.length * c := by
  intro l
  induction l with
  | nil => simp
  | cons a xs ih =>
      simp only [List.map_cons, List.sum_cons, List.length_cons, ih]
      push_cast
      ring

theorem sumPotChecked_some :
    ∀ (l : List PrecisionPrediction) (acc t : Int),
      sumPotChecked acc l = some t → t = acc + potSum l := by
  intro l
  induction l with
  | nil =>
      intro acc t h
      simp only [sumPotChecked] at h
      cases h
      simp [potSum]
  | cons q rest ih =>
      intro acc t h
      simp only [sumPotChecked] at h
      cases hc : checked_add acc q.amount with
      | none => rw [hc] at h; cases h
      | some acc1 =>
          rw [hc] at h
          have ht := ih acc1 t h
          rw [ht, checked_add_some hc]
          simp only [potSum, List.map_cons, List.sum_cons]
          ring

theorem foldl_min_le_init : ∀ (l : List Nat) (x : Nat), l.foldl min x ≤ x := by
  intro l
  induction l with
  | nil => intro x; simp
  | cons a xs ih =>
      intro x
      simp only [List.foldl_cons]
      exact le_trans (ih (min x a)) (min_le_left x a)

theorem foldl_min_le_mem : ∀ (l : List Nat) (x y : Nat), y ∈ l → l.foldl min x ≤ y := by
  intro l
  induction l with
  | nil => intro x y hy; cases hy
  | cons a xs ih =>
      intro x y hy
      rcases List.mem_cons.1 hy with hy1 | hy1
      · subst hy1
        simp only [List.foldl_cons]
        exact le_trans (foldl_min_le_init xs (min x y)) (min_le_right x y)
      · simp only [List.foldl_cons]
        exact ih (min x a) y hy1

theorem foldl_min_eq_init_or_mem :
    ∀ (l : List Nat) (x : Nat), l.foldl min x = x ∨ l.foldl min x ∈ l := by
  intro l
  induction l with
  | nil => intro x; exact Or.inl rfl
  | cons a xs ih =>
      intro x
      simp only [List.foldl_cons]
      rcases ih (min x a) with h | h
      · rcases min_choice x a with hm | hm
        · exact Or.inl (h.trans hm)
        · exact Or.inr (List.mem_cons.2 (Or.inl (h.trans hm)))
      · exact Or.inr (List.mem_cons.2 (Or.inr h))

set_option maxHeartbeats 1000000 in
/-- C2: when a Precision round with at least one prediction is resolved, a
prediction is credited exactly `total_pot / winner_count` (truncating
division) iff its absolute difference from the observed price equals the
minimum over all predictions (ties included), losers are credited nothing,
the winner set is non-empty, and the credited total is `total_pot` minus the
remainder `total_pot % winner_count`, which lies in `[0, winner_count - 1]`. -/
theorem resolve_precision_payout_spec (now_ledger now_time : Nat) (s : State)
    (p : OraclePayload) (r : Round) (s1 : State)
    (hr : s.activeRound = some r)
    (hmode : r.mode = RoundMode.Precision)
    (hnodup : (s.precisionPositions.map (fun q => q.user)).Nodup)
    (hpos : ∀ q ∈ s.precisionPositions, 0 < q.amount)
    (hne : s.precisionPositions ≠ [])
    (hok : resolve_round now_ledger now_time s p = Except.ok s1) :
    (∀ q ∈ s.precisionPositions,
      minDiffList p.price s.precisionPositions ≤ absDiff q.predicted_price p.price) ∧
    1 ≤ (precisionWinners p.price (minDiffList p.price s.precisionPositions)
      s.precisionPositions).length ∧
    (∀ q ∈ s.precisionPositions,
      absDiff q.predicted_price p.price = minDiffList p.price s.precisionPositions →
      s1.pending q.user = s.pending q.user +
        potSum s.precisionPositions /
          ((precisionWinners p.price (minDiffList p.price s.precisionPositions)
            s.precisionPositions).length : Int)) ∧
    (∀ q ∈ s.precisionPositions,
      absDiff q.predicted_price p.price ≠ minDiffList p.price s.precisionPositions →
      s1.pending q.user = s.pending q.user) ∧
    precisionCreditsSum s s1 s.precisionPositions =
      potSum s.precisionPositions -
        potSum s.precisionPositions %
          ((precisionWinners p.price (minDiffList p.price s.precisionPositions)
            s.precisionPositions).length : Int) ∧
    0 ≤ potSum s.precisionPositions %
        ((precisionWinners p.price (minDiffList p.price s.precisionPositions)
          s.precisionPositions).length : Int) ∧
    potSum s.precisionPositions %
        ((precisionWinners p.price (minDiffList p.price s.precisionPositions)
          s.precisionPositions).length : Int) ≤
      ((precisionWinners p.price (minDiffList p.price s.precisionPositions)
        s.precisionPositions).length : Int) - 1 := by
  simp only [resolve_round, hr] at hok
  split at hok
  · cases hok
  · split at hok
    · cases hok
    · rw [hmode] at hok
      have hok2 : resolve_precision s p.price = Except.ok s1 := hok
      unfold resolve_precision at hok2
      split at hok2
      · rename_i hps
        exact absurd hps hne
      · rename_i q0 rest hps
        split at hok2
        · cases hok2
        · rename_i pot hpot
          split at hok2
          · cases hok2
          · rename_i s0 hpay
            cases hok2
            have hpotv : pot = potSum (q0 :: rest) := by
              have := sumPotChecked_some (q0 :: rest) 0 pot hpot
              rw [this]
              ring
            have hmd : minDiffList p.price s.precisionPositions = minDiff p.price q0 rest := by
              rw [hps]
              simp [minDiffList]
            have hpot0 : 0 ≤ potSum (q0 :: rest) := by
              apply List.sum_nonneg
              intro a ha
              obtain ⟨q, hqm, rfl⟩ := List.mem_map.1 ha
              exact le_of_lt (hpos q (by rw [hps]; exact hqm))
            have hatt : ∃ x ∈ q0 :: rest,
                absDiff x.predicted_price p.price = minDiff p.price q0 rest := by
              rcases foldl_min_eq_init_or_mem
                  (rest.map fun x => absDiff x.predicted_price p.price)
                  (absDiff q0.predicted_price p.price) with h | h
              · exact ⟨q0, List.mem_cons_self q0 rest, h.symm⟩
              · obtain ⟨x, hx, hfx⟩ := List.mem_map.1 h
                exact ⟨x, List.mem_cons_of_mem q0 hx, hfx⟩
            have hwpos : 0 < ((q0 :: rest).filter fun x =>
                absDiff x.predicted_price p.price == minDiff p.price q0 rest).length := by
              obtain ⟨x, hx, hfx⟩ := hatt
              have hxf : x ∈ (q0 :: rest).filter fun x =>
                  absDiff x.predicted_price p.price == minDiff p.price q0 rest :=
                List.mem_filter.2 ⟨hx, by simp [hfx]⟩
              exact List.length_pos.2 (List.ne_nil_of_mem hxf)
            have hlen0 : (0 : Int) < (((q0 :: rest).filter fun x =>
                absDiff x.predicted_price p.price == minDiff p.price q0 rest).length : Int) := by
              exact_mod_cast hwpos
            obtain ⟨w1, w2, w3, _, _, _, _⟩ :=
              payPrecision_spec p.price (minDiff p.price q0 rest) _
                (q0 :: rest) s s0 hpay (by rw [hps] at hnodup; exact hnodup)
            have hpayout : pot.tdiv (((q0 :: rest).filter fun x =>
                absDiff x.predicted_price p.price == minDiff p.price q0 rest).length : Int) =
                potSum (q0 :: rest) / (((q0 :: rest).filter fun x =>
                  absDiff x.predicted_price p.price == minDiff p.price q0 rest).length : Int) := by
              rw [hpotv]
              exact Int.tdiv_eq_ediv hpot0 (le_of_lt hlen0)
            rw [hmd, hps]
            simp only [precisionWinners, precisionCreditsSum, clearRound]
            refine ⟨?_, ?_, ?_, ?_, ?_, ?_, ?_⟩
            · intro q hq
              rcases List.mem_cons.1 hq with hq1 | hq1
              · subst hq1
                exact foldl_min_le_init _ _
              · exact foldl_min_le_mem _ _ _
                  (List.mem_map_of_mem (fun x => absDiff x.predicted_price p.price) hq1)
            · exact hwpos
            · intro q hq hqd
              rw [w1 q hq hqd, hpayout]
            · intro q hq hqd
              exact w2 q hq hqd
            · have hcred : ((q0 :: rest).map fun q => s0.pending q.user - s.pending q.user) =
                  (q0 :: rest).map fun q =>
                    if absDiff q.predicted_price p.price = minDiff p.price q0 rest then
                      pot.tdiv (((q0 :: rest).filter fun x =>
                        absDiff x.predicted_price p.price == minDiff p.price q0 rest).length : Int)
                    else 0 := by
                refine List.map_congr_left ?_
                intro q hq
                by_cases hqd : absDiff q.predicted_price p.price = minDiff p.price q0 rest
                · rw [if_pos hqd, w1 q hq hqd]
                  ring
                · rw [if_neg hqd, w2 q hq hqd]
                  ring
              have hfeq : ((q0 :: rest).filter fun x =>
                  decide (absDiff x.predicted_price p.price = minDiff p.price q0 rest)) =
                  ((q0 :: rest).filter fun x =>
                    absDiff x.predicted_price p.price == minDiff p.price q0 rest) := by
                refine List.filter_congr ?_
                intro x _
                by_cases h : absDiff x.predicted_price p.price = minDiff p.price q0 rest
                · simp [h]
                · simp [h]
              have hmod := Int.ediv_add_emod (potSum (q0 :: rest))
                (((q0 :: rest).filter fun x =>
                  absDiff x.predicted_price p.price == minDiff p.price q0 rest).length : Int)
              rw [hcred, sum_map_ite_filter, hfeq, sum_map_const_int, hpayout]
              linarith
            · exact Int.emod_nonneg (potSum (q0 :: rest)) (ne_of_gt hlen0)
            · have := Int.emod_lt_of_pos (potSum (q0 :: rest)) hlen0
              linarith

theorem resolve_precision_payout_spec_witness :
    stateP.activeRound = some roundP ∧
    roundP.mode = RoundMode.Precision ∧
    (stateP.precisionPositions.map (fun q => q.user)).Nodup ∧
    (∀ q ∈ stateP.precisionPositions, 0 < q.amount) ∧
    stateP.precisionPositions ≠ [] ∧
    resolve_round 50 0 stateP payloadP =
      Except.ok (resolve_round_run 50 0 stateP payloadP) ∧
    ((∀ q ∈ stateP.precisionPositions,
        minDiffList payloadP.price stateP.precisionPositions ≤
          absDiff q.predicted_price payloadP.price) ∧
      1 ≤ (precisionWinners payloadP.price
        (minDiffList payloadP.price stateP.precisionPositions)
        stateP.precisionPositions).length ∧
      (∀ q ∈ stateP.precisionPositions,
        absDiff q.predicted_price payloadP.price =
          minDiffList payloadP.price stateP.precisionPositions →
        (resolve_round_run 50 0 stateP payloadP).pending q.user =
          stateP.pending q.user +
            potSum stateP.precisionPositions /
              ((precisionWinners payloadP.price
                (minDiffList payloadP.price stateP.precisionPositions)
                stateP.precisionPositions).length : Int)) ∧
      (∀ q ∈ stateP.precisionPositions,
        absDiff q.predicted_price payloadP.price ≠
          minDiffList payloadP.price stateP.precisionPositions →
        (resolve_round_run 50 0 stateP payloadP).pending q.user = stateP.pending q.user) ∧
      precisionCreditsSum stateP (resolve_round_run 50 0 stateP payloadP)
          stateP.precisionPositions =
        potSum stateP.precisionPositions -
          potSum stateP.precisionPositions %
            ((precisionWinners payloadP.price
              (minDiffList payloadP.price stateP.precisionPositions)
              stateP.precisionPositions).length : Int) ∧
      0 ≤ potSum stateP.precisionPositions %
          ((precisionWinners payloadP.price
            (minDiffList payloadP.price stateP.precisionPositions)
            stateP.precisionPositions).length : Int) ∧
      potSum stateP.precisionPositions %
          ((precisionWinners payloadP.price
            (minDiffList payloadP.price stateP.precisionPositions)
            stateP.precisionPositions).length : Int) ≤
        ((precisionWinners payloadP.price
          (minDiffList payloadP.price stateP.precisionPositions)
          stateP.precisionPositions).length : Int) - 1) :=
  ⟨rfl, rfl, by decide, by decide, by decide, rfl,
    resolve_precision_payout_spec 50 0 stateP payloadP roundP
      (resolve_round_run 50 0 stateP payloadP) rfl rfl (by decide) (by decide) (by decide) rfl⟩

/-- C5 counterexample: a concrete open Up/Down round where the user has a
positive amount, sufficient balance, no prior position and a matching mode —
every condition the claim lists — yet `place_bet` fails, with `Overflow`,
because the pool credit does not fit in i128; so success is not equivalent to
the listed conditions alone. -/
theorem place_bet_overflow_cex :
    statePoolMax.activeRound = some roundPoolMax ∧
    (0 : Nat) < roundPoolMax.bet_end_ledger ∧
    roundPoolMax.mode = RoundMode.UpDown ∧
    (0 : Int) < 1 ∧
    (1 : Int) ≤ balance statePoolMax 0 ∧
    hasPosition statePoolMax 0 = false ∧
    place_bet 0 statePoolMax 0 1 BetSide.Up = Except.error ContractError.Overflow := by
  refine ⟨rfl, by decide, rfl, by decide, by decide, rfl, ?_⟩
  rfl

end Xelma
